import Mathlib

/-!
Shallow embedding of the call-invocation layer of duktape
(src/src-input/duk_api_call.c) together with the parts of its environment
(value-stack primitives, the execution engine's invoke / safe-invoke
primitives) that the layer consumes.  Definitions carrying a doc comment
starting with `Modelled from the spec:` embed collaborators whose source is
not part of this repository snapshot; everything else is translated
directly from duk_api_call.c.
-/

/-- Fault kinds raised by this layer and its collaborators: invalid-argument
faults (argument/result counts or derived indices out of the safe range),
type faults (wrong value kind for an operation) and property/runtime faults
(failures inside the property subsystem or the callee). -/
inductive FaultKind where
  | invalidArgs
  | typeFault
  | propFault
deriving DecidableEq

/-- Tagged values living on the value stack (duk_tval).  Heap-allocated
objects are referenced by an index into the heap list; light (immediate)
functions carry their packed flags word inline; errObj is the caught error
value a protected boundary pushes for a given fault kind. -/
inductive DukTval where
  | undefined
  | boolean (b : Bool)
  | number (n : Int)
  | str (t : String)
  | object (ref : Nat)
  | lightfunc (lfFlags : Nat)
  | errObj (k : FaultKind)
deriving DecidableEq

/-- Closed set of heap-object kinds relevant to the call layer: plain
objects, heap native functions (with their mutable magic field), heap
interpreted (compiled) functions, and bound functions storing a target. -/
inductive HObjectKind where
  | plain
  | natfunc (magic : Int)
  | compfunc
  | boundfunc (target : DukTval)
deriving DecidableEq

/-- A heap object: its kind plus an association list of properties. -/
structure HObject where
  kind : HObjectKind
  props : List (DukTval × DukTval)
deriving DecidableEq

/-- An activation record: flags of the current call frame plus the tagged
function value being executed (tv_func). -/
structure Activation where
  flagConstruct : Bool
  flagStrict : Bool
  tvFunc : DukTval
deriving DecidableEq

/-- One observed invocation handed to the execution engine: the callee, the
receiver, the argument values and the call flags. -/
structure Invocation where
  func : DukTval
  thisv : DukTval
  args : List DukTval
  callFlags : Nat
deriving DecidableEq

/-- The thread state visible to this layer: the heap, the full value stack
(absolute, from slot 0), the current frame bottom, the reserved capacity
marker (valstack_end), the current activation, plus two instrumentation
traces: a count of property reads and the list of invocations handed to
the execution engine. -/
structure ThreadState where
  heap : List HObject
  stack : List DukTval
  bottom : Nat
  vsEnd : Nat
  callstackCurr : Option Activation
  propReads : Nat
  invocations : List Invocation
deriving DecidableEq

deriving instance DecidableEq for Except

/-- Result of an operation that may raise a fault: on fault the payload is
the fault kind together with the thread state at the moment of the raise. -/
abbrev DukRes (α : Type) := Except (FaultKind × ThreadState) (α × ThreadState)

/-- The execution engine running one resolved invocation: external
collaborator, kept as a parameter of the model. -/
abbrev Engine := Invocation → ThreadState → Except (FaultKind × ThreadState) (DukTval × ThreadState)

/-- Modelled from the spec: duk_get_top returns the current relative stack
top, i.e. the number of values above the frame bottom. -/
def dukGetTop (s : ThreadState) : Int :=
  (s.stack.length : Int) - (s.bottom : Int)

/-- Modelled from the spec: normalization of a stack index relative to the
current frame; a nonnegative index counts up from bottom, a negative one
down from top; the result is the absolute stack position, or none when the
index is outside the frame. -/
def normIdx (s : ThreadState) (idx : Int) : Option Nat :=
  let n : Int := if idx < 0 then dukGetTop s + idx else idx
  if 0 ≤ n ∧ n < dukGetTop s then some (s.bottom + n.toNat) else none

/-- Value at an absolute stack position (undefined out of range; callers
only use in-range positions). -/
def stackGet (s : ThreadState) (a : Nat) : DukTval :=
  s.stack.getD a .undefined

/-- Push a value on the stack top. -/
def dukPush (s : ThreadState) (v : DukTval) : ThreadState :=
  {s with stack := s.stack ++ [v]}

/-- Modelled from the spec: duk_dup pushes a copy of the value at the given
index; an invalid index raises an invalid-argument fault. -/
def duk_dup (s : ThreadState) (idx : Int) : DukRes Unit :=
  match normIdx s idx with
  | some a => .ok ((), dukPush s (stackGet s a))
  | none => .error (.invalidArgs, s)

/-- Modelled from the spec: duk_replace pops the top value and writes it
into the slot named by the index (which is normalized while the top value
is still present). -/
def duk_replace (s : ThreadState) (idx : Int) : DukRes Unit :=
  match normIdx s idx with
  | some a =>
    match s.stack.getLast? with
    | some v => .ok ((), {s with stack := (s.stack.set a v).dropLast})
    | none => .error (.invalidArgs, s)
  | none => .error (.invalidArgs, s)

/-- Insert a value at an absolute position of a stack, shifting the suffix
up by one. -/
def insertAt (l : List DukTval) (a : Nat) (v : DukTval) : List DukTval :=
  l.take a ++ [v] ++ l.drop a

/-- Modelled from the spec: duk_insert pops the top value and re-inserts it
at the given index (normalized while the value is still on top), shifting
the values above it up. -/
def duk_insert (s : ThreadState) (idx : Int) : DukRes Unit :=
  match normIdx s idx with
  | some a =>
    match s.stack.getLast? with
    | some v => .ok ((), {s with stack := insertAt s.stack.dropLast a v})
    | none => .error (.invalidArgs, s)
  | none => .error (.invalidArgs, s)

/-- Modelled from the spec: duk_insert_undefined pushes undefined and
inserts it at the given index. -/
def duk_insert_undefined (s : ThreadState) (idx : Int) : DukRes Unit :=
  duk_insert (dukPush s .undefined) idx

/-- Modelled from the spec: duk_require_normalize_index makes an index
absolute (relative to the frame bottom, nonnegative), raising an
invalid-argument fault when the index is outside the frame. -/
def duk_require_normalize_index (s : ThreadState) (idx : Int) : DukRes Int :=
  match normIdx s idx with
  | some a => .ok (((a : Int) - (s.bottom : Int)), s)
  | none => .error (.invalidArgs, s)

/-- Property list of the heap object behind a reference (empty when the
reference is dangling; the C code asserts it never is). -/
def heapProps (heap : List HObject) (r : Nat) : List (DukTval × DukTval) :=
  match heap.get? r with
  | some o => o.props
  | none => []

/-- Value of the property named by a key on the heap object behind a
reference; undefined when absent. -/
def propValue (heap : List HObject) (r : Nat) (key : DukTval) : DukTval :=
  ((heapProps heap r).lookup key).getD .undefined

/-- Modelled from the spec: duk_get_prop pops the key from the stack top
and reads the property named by it on the object at the given index,
pushing the fetched value (undefined when absent) and counting one
property read; a non-object base raises a property fault. -/
def duk_get_prop (s : ThreadState) (objIdx : Int) : DukRes Bool :=
  match normIdx s objIdx with
  | some a =>
    match s.stack.getLast? with
    | some key =>
      match stackGet s a with
      | .object r =>
        .ok (((heapProps s.heap r).lookup key).isSome,
             {s with stack := s.stack.dropLast ++ [propValue s.heap r key], propReads := s.propReads + 1})
      | _ => .error (.propFault, s)
    | none => .error (.invalidArgs, s)
  | none => .error (.invalidArgs, s)

/-- Modelled from the spec: duk_push_object allocates a fresh minimal
default instance on the heap and pushes a reference to it; returns the new
reference. -/
def duk_push_object (s : ThreadState) : Nat × ThreadState :=
  (s.heap.length,
   {s with heap := s.heap ++ [⟨.plain, []⟩],
           stack := s.stack ++ [.object s.heap.length]})

/-- Modelled from the spec: duk_require_tval reads the tagged value at an
index, none when the index is invalid. -/
def duk_require_tval (s : ThreadState) (idx : Int) : Option DukTval :=
  (normIdx s idx).map (stackGet s)

/-- Success status of an engine call (DUK_EXEC_SUCCESS). -/
def DUK_EXEC_SUCCESS : Int := 0

/-- Error status of a protected call (DUK_EXEC_ERROR). -/
def DUK_EXEC_ERROR : Int := 1

/-- Constructor-call flag bit (DUK_CALL_FLAG_CONSTRUCTOR_CALL). -/
def DUK_CALL_FLAG_CONSTRUCTOR_CALL : Nat := 1

/-- Modelled from the spec: invoke(idx_func, flags) — the execution
engine's unprotected call primitive.  It runs the staged window
[idx_func: func, this, args...] through the engine, records the
invocation, and leaves exactly one result at idx_func. -/
def duk_handle_call_unprotected (E : Engine) (s : ThreadState) (idxFunc : Int) (callFlags : Nat) : DukRes Int :=
  if 0 ≤ idxFunc ∧ s.bottom + idxFunc.toNat + 2 ≤ s.stack.length then
    let a := s.bottom + idxFunc.toNat
    let inv : Invocation := ⟨stackGet s a, stackGet s (a + 1), s.stack.drop (a + 2), callFlags⟩
    match E inv {s with invocations := s.invocations ++ [inv]} with
    | .ok (v, s2) => .ok (DUK_EXEC_SUCCESS, {s2 with stack := s2.stack.take a ++ [v]})
    | .error e => .error e
  else .error (.invalidArgs, s)

/-- Modelled from the spec: invoke_by_depth(nargs, flags) — same as invoke
but operating on the current top window, i.e. with
idx_func = top - nargs - 2. -/
def duk_handle_call_unprotected_nargs (E : Engine) (s : ThreadState) (nargs : Int) (callFlags : Nat) : DukRes Int :=
  duk_handle_call_unprotected E s (dukGetTop s - nargs - 2) callFlags

/-- Modelled from the spec: safe_invoke(operation, nargs, nrets) — the
execution engine's sole fault-isolating boundary.  It runs the operation;
on success the operation's declared results are moved down to the
pre-call top position (top - nargs) and padded/truncated to exactly nrets
values; on fault the stack is unwound to the pre-call depth, the caught
error value is pushed as the result (padded to nrets), the frame markers
are restored, and a non-zero status is returned. -/
def duk_handle_safe_call (s : ThreadState) (f : ThreadState → DukRes Int) (nargs nrets : Int) : Int × ThreadState :=
  let retBase := s.stack.length - nargs.toNat
  match f s with
  | .ok (rc, s2) =>
    let results := (s2.stack.drop (s2.stack.length - rc.toNat) ++ List.replicate nrets.toNat DukTval.undefined).take nrets.toNat
    (DUK_EXEC_SUCCESS, {s2 with stack := s2.stack.take retBase ++ results})
  | .error (k, s2) =>
    let results := ([DukTval.errObj k] ++ List.replicate nrets.toNat DukTval.undefined).take nrets.toNat
    (DUK_EXEC_ERROR,
     {s2 with stack := s2.stack.take retBase ++ results, bottom := s.bottom, callstackCurr := s.callstackCurr})

/-- duk__call_get_idx_func: compute and validate idx_func for a given nargs
and count of fixed leading slots; raises an invalid-argument fault when
idx_func < 0 or nargs < 0 (the C code checks the OR of the sign bits). -/
def duk__call_get_idx_func (s : ThreadState) (nargs other : Int) : DukRes Int :=
  let idxFunc := dukGetTop s - nargs - other
  if idxFunc < 0 ∨ nargs < 0 then .error (.invalidArgs, s)
  else .ok (idxFunc, s)

/-- duk__call_get_idx_func_unvalidated: compute idx_func assuming the
enclosing protected harness already validated the argument count. -/
def duk__call_get_idx_func_unvalidated (s : ThreadState) (nargs other : Int) : Int :=
  dukGetTop s - nargs - other

/-- duk__call_prop_prep_stack: prepare the value stack for a method call
through an object property: duplicate the key, read the property on the
object, replace the original key slot with the fetched function, then
duplicate the object and insert it as the receiver after the function. -/
def duk__call_prop_prep_stack (s : ThreadState) (objIdx nargs : Int) : DukRes Unit :=
  match duk_dup s (-nargs - 1) with
  | .error e => .error e
  | .ok (_, s1) =>
    match duk_get_prop s1 objIdx with
    | .error e => .error e
    | .ok (_, s2) =>
      match duk_replace s2 (-nargs - 2) with
      | .error e => .error e
      | .ok (_, s3) =>
        match duk_dup s3 objIdx with
        | .error e => .error e
        | .ok (_, s4) => duk_insert s4 (-nargs - 1)

/-- duk_call: validated idx_func (other = 1), insert an undefined receiver
at idx_func + 1, invoke unprotected with no flags. -/
def duk_call (E : Engine) (s : ThreadState) (nargs : Int) : DukRes Int :=
  match duk__call_get_idx_func s nargs 1 with
  | .error e => .error e
  | .ok (idxFunc, s1) =>
    match duk_insert_undefined s1 (idxFunc + 1) with
    | .error e => .error e
    | .ok (_, s2) => duk_handle_call_unprotected E s2 idxFunc 0

/-- duk_call_method: validated idx_func (other = 2, func and receiver
pre-staged by the caller), invoke unprotected with no flags. -/
def duk_call_method (E : Engine) (s : ThreadState) (nargs : Int) : DukRes Int :=
  match duk__call_get_idx_func s nargs 2 with
  | .error e => .error e
  | .ok (idxFunc, s1) => duk_handle_call_unprotected E s1 idxFunc 0

/-- duk_call_prop: normalize the object index, reject negative nargs, run
the property-call preparer, then delegate to duk_call_method. -/
def duk_call_prop (E : Engine) (s : ThreadState) (objIdx nargs : Int) : DukRes Int :=
  match duk_require_normalize_index s objIdx with
  | .error e => .error e
  | .ok (o, s1) =>
    if nargs < 0 then .error (.invalidArgs, s1)
    else
      match duk__call_prop_prep_stack s1 o nargs with
      | .error e => .error e
      | .ok (_, s2) => duk_call_method E s2 nargs

/-- duk__pcall_raw: the helper run under the protected boundary for a plain
protected call: unvalidated idx_func (other = 1), insert an undefined
receiver at idx_func + 1, invoke unprotected, declare one result. -/
def duk__pcall_raw (E : Engine) (nargs : Int) (callFlags : Nat) (s : ThreadState) : DukRes Int :=
  let idxFunc := duk__call_get_idx_func_unvalidated s nargs 1
  match duk_insert_undefined s (idxFunc + 1) with
  | .error e => .error e
  | .ok (_, s1) =>
    match duk_handle_call_unprotected E s1 idxFunc callFlags with
    | .error e => .error e
    | .ok (_, s2) => .ok (1, s2)

/-- duk_safe_call: validate (without mutating the stack) that nargs and
nrets are nonnegative, that at least nargs values exist above the frame
bottom, and that the reserved capacity can hold nrets results after
consuming nargs; any violation raises an invalid-argument fault, otherwise
delegate to the fault-isolating safe-call primitive. -/
def duk_safe_call (s : ThreadState) (f : ThreadState → DukRes Int) (nargs nrets : Int) : DukRes Int :=
  if nargs < 0 ∨ nrets < 0 ∨
     (s.stack.length : Int) < (s.bottom : Int) + nargs ∨
     (s.vsEnd : Int) + nargs < (s.stack.length : Int) + nrets then
    .error (.invalidArgs, s)
  else
    .ok (duk_handle_safe_call s f nargs nrets)

/-- duk_pcall: reject negative nargs synchronously, then run the plain-call
helper under the protected boundary declaring nargs + 1 inputs and one
result. -/
def duk_pcall (E : Engine) (s : ThreadState) (nargs : Int) : DukRes Int :=
  if nargs < 0 then .error (.invalidArgs, s)
  else duk_safe_call s (duk__pcall_raw E nargs 0) (nargs + 1) 1

/-- duk__pcall_method_raw: helper for the protected method call:
unvalidated idx_func (other = 2), invoke unprotected, declare one
result. -/
def duk__pcall_method_raw (E : Engine) (nargs : Int) (callFlags : Nat) (s : ThreadState) : DukRes Int :=
  let idxFunc := duk__call_get_idx_func_unvalidated s nargs 2
  match duk_handle_call_unprotected E s idxFunc callFlags with
  | .error e => .error e
  | .ok (_, s1) => .ok (1, s1)

/-- duk_pcall_method_flags: reject negative nargs synchronously, then run
the method-call helper under the protected boundary declaring nargs + 2
inputs and one result. -/
def duk_pcall_method_flags (E : Engine) (s : ThreadState) (nargs : Int) (callFlags : Nat) : DukRes Int :=
  if nargs < 0 then .error (.invalidArgs, s)
  else duk_safe_call s (duk__pcall_method_raw E nargs callFlags) (nargs + 2) 1

/-- duk_pcall_method: duk_pcall_method_flags with no flags. -/
def duk_pcall_method (E : Engine) (s : ThreadState) (nargs : Int) : DukRes Int :=
  duk_pcall_method_flags E s nargs 0

/-- duk__pcall_prop_raw: helper for the protected property call: normalize
the object index (inside the boundary), prepare the stack, invoke by
depth, declare one result. -/
def duk__pcall_prop_raw (E : Engine) (objIdx nargs : Int) (callFlags : Nat) (s : ThreadState) : DukRes Int :=
  match duk_require_normalize_index s objIdx with
  | .error e => .error e
  | .ok (o, s1) =>
    match duk__call_prop_prep_stack s1 o nargs with
    | .error e => .error e
    | .ok (_, s2) =>
      match duk_handle_call_unprotected_nargs E s2 nargs callFlags with
      | .error e => .error e
      | .ok (_, s3) => .ok (1, s3)

/-- duk_pcall_prop: reject negative nargs synchronously, then run the
property-call helper under the protected boundary declaring nargs + 1
inputs and one result. -/
def duk_pcall_prop (E : Engine) (s : ThreadState) (objIdx nargs : Int) : DukRes Int :=
  if nargs < 0 then .error (.invalidArgs, s)
  else duk_safe_call s (duk__pcall_prop_raw E objIdx nargs 0) (nargs + 1) 1

/-- duk_new: validated idx_func (other = 1), push a fresh default
instance, insert it as the receiver at idx_func + 1, invoke with the
constructor flag set. -/
def duk_new (E : Engine) (s : ThreadState) (nargs : Int) : DukRes Int :=
  match duk__call_get_idx_func s nargs 1 with
  | .error e => .error e
  | .ok (idxFunc, s1) =>
    let s2 := (duk_push_object s1).2
    match duk_insert s2 (idxFunc + 1) with
    | .error e => .error e
    | .ok (_, s3) => duk_handle_call_unprotected E s3 idxFunc DUK_CALL_FLAG_CONSTRUCTOR_CALL

/-- duk__pnew_helper: run duk_new inside the protected boundary, declaring
one result. -/
def duk__pnew_helper (E : Engine) (nargs : Int) (s : ThreadState) : DukRes Int :=
  match duk_new E s nargs with
  | .error e => .error e
  | .ok (_, s1) => .ok (1, s1)

/-- duk_pnew: reject negative nargs synchronously, then wrap duk_new in
the protected boundary (the default-instance push itself may fault). -/
def duk_pnew (E : Engine) (s : ThreadState) (nargs : Int) : DukRes Int :=
  if nargs < 0 then .error (.invalidArgs, s)
  else duk_safe_call s (duk__pnew_helper E nargs) (nargs + 1) 1

/-- duk_is_constructor_call: the constructor flag of the current
activation; false when there is no current activation. -/
def duk_is_constructor_call (s : ThreadState) : Bool :=
  match s.callstackCurr with
  | some act => act.flagConstruct
  | none => false

/-- duk_is_strict_call: the strict flag of the current activation; strict
by default when there is no current activation. -/
def duk_is_strict_call (s : ThreadState) : Bool :=
  match s.callstackCurr with
  | some act => act.flagStrict
  | none => true

/-- Truncation of an integer to the signed 16-bit range, as performed by
the C cast to duk_int16_t. -/
def toInt16 (m : Int) : Int :=
  (m + 32768) % 65536 - 32768

/-- Modelled from the spec: magic of a light (immediate) function,
extracted from its packed flags word as a sign-extended byte. -/
def DUK_LFUNC_FLAGS_GET_MAGIC (lfFlags : Nat) : Int :=
  let b := (lfFlags / 256) % 256
  if b < 128 then (b : Int) else (b : Int) - 256

/-- duk_get_current_magic: magic of the current activation's function;
extracted from the flags word for a light function, read from the field
for a heap native function, 0 for any other function or with no
activation. -/
def duk_get_current_magic (s : ThreadState) : Int :=
  match s.callstackCurr with
  | some act =>
    match act.tvFunc with
    | .lightfunc lf => DUK_LFUNC_FLAGS_GET_MAGIC lf
    | .object r =>
      match s.heap.get? r with
      | some o =>
        match o.kind with
        | .natfunc m => m
        | _ => 0
      | none => 0
    | _ => 0
  | none => 0

/-- duk_get_magic: magic of the value at an index; type fault when the
value is neither a heap native function nor a light function, invalid-
argument fault when the index is invalid. -/
def duk_get_magic (s : ThreadState) (idx : Int) : DukRes Int :=
  match duk_require_tval s idx with
  | none => .error (.invalidArgs, s)
  | some tv =>
    match tv with
    | .object r =>
      match s.heap.get? r with
      | some o =>
        match o.kind with
        | .natfunc m => .ok (m, s)
        | _ => .error (.typeFault, s)
      | none => .error (.typeFault, s)
    | .lightfunc lf => .ok (DUK_LFUNC_FLAGS_GET_MAGIC lf, s)
    | _ => .error (.typeFault, s)

/-- Modelled from the spec: duk_require_hnatfunc resolves the value at an
index to a heap native function, returning its reference and object, or
none when the value is anything else. -/
def duk_require_hnatfunc (s : ThreadState) (idx : Int) : Option (Nat × HObject) :=
  match duk_require_tval s idx with
  | some (.object r) =>
    match s.heap.get? r with
    | some o =>
      match o.kind with
      | .natfunc _ => some (r, o)
      | _ => none
    | none => none
  | _ => none

/-- duk_set_magic: require a heap native function at the index (type fault
otherwise) and store the magic value truncated to the signed 16-bit
range. -/
def duk_set_magic (s : ThreadState) (idx : Int) (magic : Int) : DukRes Unit :=
  match duk_require_hnatfunc s idx with
  | some (r, o) =>
    .ok ((), {s with heap := s.heap.set r {o with kind := .natfunc (toInt16 magic)}})
  | none => .error (.typeFault, s)

/-- duk_resolve_nonbound_function: if the stack top is a heap bound
function, replace it in place with its stored target (one unwrap, no
loop); any other value is left unchanged. -/
def duk_resolve_nonbound_function (s : ThreadState) : ThreadState :=
  match s.stack.getLast? with
  | some (.object r) =>
    match s.heap.get? r with
    | some o =>
      match o.kind with
      | .boundfunc target => {s with stack := s.stack.dropLast ++ [target]}
      | _ => s
    | none => s
  | _ => s

/-- Whether a heap-object kind is the bound-function kind. -/
def kindIsBound : HObjectKind → Bool
  | .boundfunc _ => true
  | _ => false

/-- Whether a tagged value is not a (live) heap bound function in the
given heap. -/
def tvalNonboundIn (heap : List HObject) : DukTval → Bool
  | .object r =>
    match heap.get? r with
    | some o => !kindIsBound o.kind
    | none => true
  | _ => true

/-- The binder's construction invariant: the stored target of every bound
function in the heap is itself non-bound. -/
def binderInvariant (heap : List HObject) : Bool :=
  heap.all (fun o =>
    match o.kind with
    | .boundfunc t => tvalNonboundIn heap t
    | _ => true)


/-- A trivial execution engine returning undefined and leaving the state
unchanged; used to instantiate engine-parameterized theorems. -/
def engineConst : Engine := fun _ s => .ok (.undefined, s)

/-- An execution engine returning the receiver of the invocation; used to
observe which receiver a call path passes to the engine. -/
def engineEcho : Engine := fun inv s => .ok (inv.thisv, s)

/-- A concrete empty-frame state used by witnesses. -/
def stEmpty : ThreadState := ⟨[], [], 0, 8, none, 0, []⟩

/-- A trivial protected-call helper used by witnesses. -/
def fNop : ThreadState → DukRes Int := fun s => .ok (0, s)

/-- A concrete bound function whose target is a light function. -/
def boundObj : HObject := ⟨.boundfunc (.lightfunc 0), []⟩

/-- A concrete state with a bound function on the stack top. -/
def stBound : ThreadState := ⟨[boundObj], [.object 0], 0, 8, none, 0, []⟩

/-- A concrete heap native function with magic 7. -/
def natObj : HObject := ⟨.natfunc 7, []⟩

/-- A concrete state with a native function on the stack. -/
def stNat : ThreadState := ⟨[natObj], [.object 0], 0, 8, none, 0, []⟩

/-- A concrete object with a function-valued property named f. -/
def objF : HObject := ⟨.plain, [(.str "f", .lightfunc 0)]⟩

/-- A concrete state staged for a protected property call. -/
def stPP : ThreadState := ⟨[], [DukTval.str "f", DukTval.number 1], 0, 8, none, 0, []⟩

/-- Characterization of successful index normalization: a negative index
counts down from the top, a nonnegative one up from the bottom. -/
theorem normIdx_eq (s : ThreadState) (idx : Int) (a : Nat)
    (hb : s.bottom ≤ a) (ha : a < s.stack.length)
    (hcase : (idx < 0 ∧ (a : Int) = (s.stack.length : Int) + idx) ∨
             (0 ≤ idx ∧ (a : Int) = (s.bottom : Int) + idx)) :
    normIdx s idx = some a := by
  rcases hcase with ⟨h1, h2⟩ | ⟨h1, h2⟩
  · simp only [normIdx, dukGetTop, if_pos h1]
    rw [if_pos (by constructor <;> omega)]
    simp only [Option.some.injEq]
    omega
  · have h1' : ¬ idx < 0 := by omega
    simp only [normIdx, dukGetTop, if_neg h1']
    rw [if_pos (by constructor <;> omega)]
    simp only [Option.some.injEq]
    omega

/-- Characterization of failing index normalization: the index points
outside the current frame. -/
theorem normIdx_none (s : ThreadState) (idx : Int)
    (hcase : (idx < 0 ∧ (s.stack.length : Int) + idx < (s.bottom : Int)) ∨
             (0 ≤ idx ∧ (s.bottom : Int) + idx ≥ (s.stack.length : Int))) :
    normIdx s idx = none := by
  rcases hcase with ⟨h1, h2⟩ | ⟨h1, h2⟩
  · simp only [normIdx, dukGetTop, if_pos h1]
    rw [if_neg (by omega)]
  · have h1' : ¬ idx < 0 := by omega
    simp only [normIdx, dukGetTop, if_neg h1']
    rw [if_neg (by omega)]

/-- Evaluation of duk_dup once its index normalizes. -/
theorem duk_dup_eval (s : ThreadState) (idx : Int) (a : Nat)
    (hn : normIdx s idx = some a) :
    duk_dup s idx = .ok ((), dukPush s (stackGet s a)) := by
  simp only [duk_dup, hn]

/-- Evaluation of duk_replace once its index normalizes and the stack is
nonempty. -/
theorem duk_replace_eval (s : ThreadState) (idx : Int) (a : Nat) (v : DukTval)
    (hn : normIdx s idx = some a) (hl : s.stack.getLast? = some v) :
    duk_replace s idx = .ok ((), {s with stack := (s.stack.set a v).dropLast}) := by
  simp only [duk_replace, hn, hl]

/-- Evaluation of duk_insert once its index normalizes and the stack is
nonempty. -/
theorem duk_insert_eval (s : ThreadState) (idx : Int) (a : Nat) (v : DukTval)
    (hn : normIdx s idx = some a) (hl : s.stack.getLast? = some v) :
    duk_insert s idx = .ok ((), {s with stack := insertAt s.stack.dropLast a v}) := by
  simp only [duk_insert, hn, hl]

/-- Evaluation of duk_get_prop once its index normalizes, the key is on
top and the base is an object. -/
theorem duk_get_prop_eval (s : ThreadState) (objIdx : Int) (a : Nat) (key : DukTval) (r : Nat)
    (hn : normIdx s objIdx = some a) (hl : s.stack.getLast? = some key)
    (hg : stackGet s a = .object r) :
    duk_get_prop s objIdx = .ok (((heapProps s.heap r).lookup key).isSome,
      {s with stack := s.stack.dropLast ++ [propValue s.heap r key], propReads := s.propReads + 1}) := by
  simp only [duk_get_prop, hn, hl, hg]

/-- normIdx_eq specialized to a literal thread state, keeping the side
conditions free of structure projections. -/
theorem normIdx_lit (H : List HObject) (S : List DukTval) (b e pr : Nat)
    (c : Option Activation) (iv : List Invocation) (idx : Int) (a : Nat)
    (hb : b ≤ a) (ha : a < S.length)
    (hcase : (idx < 0 ∧ (a : Int) = (S.length : Int) + idx) ∨
             (0 ≤ idx ∧ (a : Int) = (b : Int) + idx)) :
    normIdx ⟨H, S, b, e, c, pr, iv⟩ idx = some a :=
  normIdx_eq _ _ _ hb ha hcase

/-- Evaluation of the property-call preparer on the generic frame shape:
from [... key arg1..argN] above an object at a normalized index it
produces [... func this arg1..argN] with func read from the object and
the object itself as receiver, counting exactly one property read. -/
theorem duk__call_prop_prep_stack_eval
    (H : List HObject) (P A : List DukTval) (k : DukTval) (b e pr : Nat)
    (c : Option Activation) (iv : List Invocation) (o r : Nat)
    (hb : b ≤ P.length) (ho : b + o < P.length)
    (hobj : P.getD (b + o) DukTval.undefined = DukTval.object r) :
    duk__call_prop_prep_stack ⟨H, P ++ k :: A, b, e, c, pr, iv⟩ (o : Int) (A.length : Int) =
      .ok ((), ⟨H, P ++ propValue H r k :: DukTval.object r :: A, b, e, c, pr + 1, iv⟩) := by
  have hn1 : normIdx (⟨H, P ++ k :: A, b, e, c, pr, iv⟩ : ThreadState) (-(A.length : Int) - 1) = some P.length := by
    apply normIdx_lit
    · exact hb
    · simp only [List.length_append, List.length_cons, List.length_nil]
      omega
    · left
      refine ⟨by omega, ?_⟩
      simp only [List.length_append, List.length_cons, List.length_nil]
      push_cast
      omega
  have hsg1 : stackGet (⟨H, P ++ k :: A, b, e, c, pr, iv⟩ : ThreadState) P.length = k := by
    simp only [stackGet]
    rw [List.getD_append_right _ _ _ _ le_rfl]
    simp
  have h1 : duk_dup (⟨H, P ++ k :: A, b, e, c, pr, iv⟩ : ThreadState) (-(A.length : Int) - 1) =
      .ok ((), (⟨H, (P ++ k :: A) ++ [k], b, e, c, pr, iv⟩ : ThreadState)) := by
    rw [duk_dup_eval _ _ P.length hn1, hsg1]
    rfl
  have hn2 : normIdx (⟨H, (P ++ k :: A) ++ [k], b, e, c, pr, iv⟩ : ThreadState) (o : Int) = some (b + o) := by
    apply normIdx_lit
    · omega
    · simp only [List.length_append, List.length_cons, List.length_nil]
      omega
    · right
      refine ⟨by omega, by push_cast; omega⟩
  have hsg2 : stackGet (⟨H, (P ++ k :: A) ++ [k], b, e, c, pr, iv⟩ : ThreadState) (b + o) = DukTval.object r := by
    simp only [stackGet]
    rw [List.getD_append _ _ _ _ (by simp only [List.length_append, List.length_cons, List.length_nil]; omega),
        List.getD_append _ _ _ _ ho]
    exact hobj
  have h2 : duk_get_prop (⟨H, (P ++ k :: A) ++ [k], b, e, c, pr, iv⟩ : ThreadState) (o : Int) =
      .ok (((heapProps H r).lookup k).isSome,
           (⟨H, (P ++ k :: A) ++ [propValue H r k], b, e, c, pr + 1, iv⟩ : ThreadState)) := by
    rw [duk_get_prop_eval _ _ (b + o) k r hn2 (List.getLast?_concat _) hsg2]
    simp only [List.dropLast_concat]
  have hn3 : normIdx (⟨H, (P ++ k :: A) ++ [propValue H r k], b, e, c, pr + 1, iv⟩ : ThreadState) (-(A.length : Int) - 2) = some P.length := by
    apply normIdx_lit
    · exact hb
    · simp only [List.length_append, List.length_cons, List.length_nil]
      omega
    · left
      refine ⟨by omega, ?_⟩
      simp only [List.length_append, List.length_cons, List.length_nil]
      push_cast
      omega
  have h3 : duk_replace (⟨H, (P ++ k :: A) ++ [propValue H r k], b, e, c, pr + 1, iv⟩ : ThreadState) (-(A.length : Int) - 2) =
      .ok ((), (⟨H, P ++ propValue H r k :: A, b, e, c, pr + 1, iv⟩ : ThreadState)) := by
    rw [duk_replace_eval _ _ P.length (propValue H r k) hn3 (List.getLast?_concat _)]
    have hset : (((P ++ k :: A) ++ [propValue H r k]).set P.length (propValue H r k)).dropLast
        = P ++ propValue H r k :: A := by
      rw [List.set_append, if_pos (by simp only [List.length_append, List.length_cons, List.length_nil]; omega)]
      rw [List.set_append, if_neg (by omega)]
      simp only [Nat.sub_self, List.set_cons_zero, List.dropLast_concat]
    simp only [hset]
  have hn4 : normIdx (⟨H, P ++ propValue H r k :: A, b, e, c, pr + 1, iv⟩ : ThreadState) (o : Int) = some (b + o) := by
    apply normIdx_lit
    · omega
    · simp only [List.length_append, List.length_cons, List.length_nil]
      omega
    · right
      refine ⟨by omega, by push_cast; omega⟩
  have hsg4 : stackGet (⟨H, P ++ propValue H r k :: A, b, e, c, pr + 1, iv⟩ : ThreadState) (b + o) = DukTval.object r := by
    simp only [stackGet]
    rw [List.getD_append _ _ _ _ ho]
    exact hobj
  have h4 : duk_dup (⟨H, P ++ propValue H r k :: A, b, e, c, pr + 1, iv⟩ : ThreadState) (o : Int) =
      .ok ((), (⟨H, (P ++ propValue H r k :: A) ++ [DukTval.object r], b, e, c, pr + 1, iv⟩ : ThreadState)) := by
    rw [duk_dup_eval _ _ (b + o) hn4, hsg4]
    rfl
  have hn5 : normIdx (⟨H, (P ++ propValue H r k :: A) ++ [DukTval.object r], b, e, c, pr + 1, iv⟩ : ThreadState) (-(A.length : Int) - 1) = some (P.length + 1) := by
    apply normIdx_lit
    · omega
    · simp only [List.length_append, List.length_cons, List.length_nil]
      omega
    · left
      refine ⟨by omega, ?_⟩
      simp only [List.length_append, List.length_cons, List.length_nil]
      push_cast
      omega
  have h5 : duk_insert (⟨H, (P ++ propValue H r k :: A) ++ [DukTval.object r], b, e, c, pr + 1, iv⟩ : ThreadState) (-(A.length : Int) - 1) =
      .ok ((), (⟨H, P ++ propValue H r k :: DukTval.object r :: A, b, e, c, pr + 1, iv⟩ : ThreadState)) := by
    rw [duk_insert_eval _ _ (P.length + 1) (DukTval.object r) hn5 (List.getLast?_concat _)]
    have hins : insertAt ((P ++ propValue H r k :: A) ++ [DukTval.object r]).dropLast (P.length + 1) (DukTval.object r)
        = P ++ propValue H r k :: DukTval.object r :: A := by
      rw [List.dropLast_concat]
      have hPA : P ++ propValue H r k :: A = (P ++ [propValue H r k]) ++ A := by
        simp
      rw [insertAt, hPA,
          List.take_left' (by simp),
          List.drop_left' (by simp)]
      simp
    simp only [hins]
  simp only [duk__call_prop_prep_stack, h1, h2, h3, h4, h5]

/-- Evaluation of the invoke primitive on a decoded window: the staged
callee, receiver and arguments are handed to the engine (and recorded),
and the single result replaces the window. -/
theorem duk_handle_call_unprotected_eval (E : Engine) (H : List HObject)
    (P A : List DukTval) (F T : DukTval) (b e pr : Nat)
    (c : Option Activation) (iv : List Invocation) (cf : Nat)
    (hb : b ≤ P.length) :
    duk_handle_call_unprotected E ⟨H, P ++ F :: T :: A, b, e, c, pr, iv⟩ ((P.length : Int) - (b : Int)) cf =
      (match E ⟨F, T, A, cf⟩ ⟨H, P ++ F :: T :: A, b, e, c, pr, iv ++ [⟨F, T, A, cf⟩]⟩ with
       | .ok (v, s2) => .ok (DUK_EXEC_SUCCESS, {s2 with stack := s2.stack.take P.length ++ [v]})
       | .error e2 => .error e2) := by
  have ha : b + ((P.length : Int) - (b : Int)).toNat = P.length := by omega
  have hlen : P.length + 2 ≤ (P ++ F :: T :: A).length := by
    simp only [List.length_append, List.length_cons]
    omega
  have hgF : (P ++ F :: T :: A).getD P.length DukTval.undefined = F := by
    rw [List.getD_append_right _ _ _ _ le_rfl]
    simp
  have hgT : (P ++ F :: T :: A).getD (P.length + 1) DukTval.undefined = T := by
    rw [List.getD_append_right _ _ _ _ (by omega)]
    simp
  have hdrop : (P ++ F :: T :: A).drop (P.length + 2) = A := by
    have : P ++ F :: T :: A = (P ++ [F, T]) ++ A := by simp
    rw [this, List.drop_left' (by simp)]
  simp only [duk_handle_call_unprotected]
  rw [if_pos (by constructor <;> omega)]
  simp only [ha, stackGet, hgF, hgT, hdrop]

/-- duk_call_method on a staged [func, this, args] window delegates to the
invoke primitive without touching the stack. -/
theorem duk_call_method_eval (E : Engine) (H : List HObject)
    (P A : List DukTval) (F T : DukTval) (b e pr : Nat)
    (c : Option Activation) (iv : List Invocation)
    (hb : b ≤ P.length) :
    duk_call_method E ⟨H, P ++ F :: T :: A, b, e, c, pr, iv⟩ (A.length : Int) =
      duk_handle_call_unprotected E ⟨H, P ++ F :: T :: A, b, e, c, pr, iv⟩ ((P.length : Int) - (b : Int)) 0 := by
  have hidx : dukGetTop ⟨H, P ++ F :: T :: A, b, e, c, pr, iv⟩ - (A.length : Int) - 2 = (P.length : Int) - (b : Int) := by
    simp only [dukGetTop, List.length_append, List.length_cons]
    push_cast
    omega
  simp only [duk_call_method, duk__call_get_idx_func, hidx]
  rw [if_neg (by omega)]

/-- duk_call on a staged [func, args] window inserts an undefined receiver
at idx_func + 1 and delegates to the invoke primitive with no flags. -/
theorem duk_call_eval (E : Engine) (H : List HObject)
    (P A : List DukTval) (F : DukTval) (b e pr : Nat)
    (c : Option Activation) (iv : List Invocation)
    (hb : b ≤ P.length) :
    duk_call E ⟨H, P ++ F :: A, b, e, c, pr, iv⟩ (A.length : Int) =
      duk_handle_call_unprotected E ⟨H, P ++ F :: DukTval.undefined :: A, b, e, c, pr, iv⟩ ((P.length : Int) - (b : Int)) 0 := by
  have hidx : dukGetTop ⟨H, P ++ F :: A, b, e, c, pr, iv⟩ - (A.length : Int) - 1 = (P.length : Int) - (b : Int) := by
    simp only [dukGetTop, List.length_append, List.length_cons]
    push_cast
    omega
  have hins : duk_insert_undefined (⟨H, P ++ F :: A, b, e, c, pr, iv⟩ : ThreadState) (((P.length : Int) - (b : Int)) + 1) =
      .ok ((), (⟨H, P ++ F :: DukTval.undefined :: A, b, e, c, pr, iv⟩ : ThreadState)) := by
    simp only [duk_insert_undefined, dukPush]
    have hn : normIdx (⟨H, (P ++ F :: A) ++ [DukTval.undefined], b, e, c, pr, iv⟩ : ThreadState) (((P.length : Int) - (b : Int)) + 1) = some (P.length + 1) := by
      apply normIdx_lit
      · omega
      · simp only [List.length_append, List.length_cons, List.length_nil]
        omega
      · right
        refine ⟨by omega, by push_cast; omega⟩
    rw [duk_insert_eval _ _ (P.length + 1) DukTval.undefined hn (List.getLast?_concat _)]
    have : insertAt ((P ++ F :: A) ++ [DukTval.undefined]).dropLast (P.length + 1) DukTval.undefined
        = P ++ F :: DukTval.undefined :: A := by
      rw [List.dropLast_concat]
      have hPA : P ++ F :: A = (P ++ [F]) ++ A := by simp
      rw [insertAt, hPA, List.take_left' (by simp), List.drop_left' (by simp)]
      simp
    simp only [this]
  simp only [duk_call, duk__call_get_idx_func, hidx]
  rw [if_neg (by omega)]
  simp only [hins]

/-- C1: every public call variant invoked with nargs < 0 raises an
invalid-argument fault synchronously with the value stack unchanged; for
the protected variants the fault propagates as a raise instead of being
converted into a returned protected status. -/
theorem c1_nargs_negative_faults (E : Engine) (s : ThreadState) (nargs objIdx : Int)
    (h : nargs < 0) :
    duk_call E s nargs = .error (.invalidArgs, s) ∧
    duk_call_method E s nargs = .error (.invalidArgs, s) ∧
    duk_call_prop E s objIdx nargs = .error (.invalidArgs, s) ∧
    duk_new E s nargs = .error (.invalidArgs, s) ∧
    duk_pcall E s nargs = .error (.invalidArgs, s) ∧
    duk_pcall_method E s nargs = .error (.invalidArgs, s) ∧
    duk_pcall_prop E s objIdx nargs = .error (.invalidArgs, s) ∧
    duk_pnew E s nargs = .error (.invalidArgs, s) := by
  refine ⟨?_, ?_, ?_, ?_, ?_, ?_, ?_, ?_⟩
  · simp only [duk_call, duk__call_get_idx_func]
    rw [if_pos (Or.inr h)]
  · simp only [duk_call_method, duk__call_get_idx_func]
    rw [if_pos (Or.inr h)]
  · simp only [duk_call_prop, duk_require_normalize_index]
    cases hn : normIdx s objIdx
    · rfl
    · dsimp only
      rw [if_pos h]
  · simp only [duk_new, duk__call_get_idx_func]
    rw [if_pos (Or.inr h)]
  · simp only [duk_pcall]
    rw [if_pos h]
  · simp only [duk_pcall_method, duk_pcall_method_flags]
    rw [if_pos h]
  · simp only [duk_pcall_prop]
    rw [if_pos h]
  · simp only [duk_pnew]
    rw [if_pos h]

/-- Witness for C1 at a concrete state and nargs = -1. -/
theorem c1_witness :
    duk_call engineConst stEmpty (-1) = .error (.invalidArgs, stEmpty) ∧
    duk_call_method engineConst stEmpty (-1) = .error (.invalidArgs, stEmpty) ∧
    duk_call_prop engineConst stEmpty 0 (-1) = .error (.invalidArgs, stEmpty) ∧
    duk_new engineConst stEmpty (-1) = .error (.invalidArgs, stEmpty) ∧
    duk_pcall engineConst stEmpty (-1) = .error (.invalidArgs, stEmpty) ∧
    duk_pcall_method engineConst stEmpty (-1) = .error (.invalidArgs, stEmpty) ∧
    duk_pcall_prop engineConst stEmpty 0 (-1) = .error (.invalidArgs, stEmpty) ∧
    duk_pnew engineConst stEmpty (-1) = .error (.invalidArgs, stEmpty) :=
  c1_nargs_negative_faults engineConst stEmpty (-1) 0 (by decide)

/-- C2: duk_safe_call raises an invalid-argument fault with the stack
unchanged exactly when nargs < 0, nrets < 0, fewer than nargs values sit
above the frame bottom, or the reserve cannot hold nrets results; when no
condition holds it delegates to the fault-isolating safe-call primitive
and returns its status. -/
theorem c2_safe_call_validation (s : ThreadState) (f : ThreadState → DukRes Int) (nargs nrets : Int) :
    (duk_safe_call s f nargs nrets = .error (.invalidArgs, s) ↔
       (nargs < 0 ∨ nrets < 0 ∨ (s.stack.length : Int) < (s.bottom : Int) + nargs ∨
        (s.vsEnd : Int) + nargs < (s.stack.length : Int) + nrets)) ∧
    (¬ (nargs < 0 ∨ nrets < 0 ∨ (s.stack.length : Int) < (s.bottom : Int) + nargs ∨
        (s.vsEnd : Int) + nargs < (s.stack.length : Int) + nrets) →
      duk_safe_call s f nargs nrets = .ok (duk_handle_safe_call s f nargs nrets)) := by
  by_cases hc : (nargs < 0 ∨ nrets < 0 ∨ (s.stack.length : Int) < (s.bottom : Int) + nargs ∨
      (s.vsEnd : Int) + nargs < (s.stack.length : Int) + nrets)
  · refine ⟨?_, fun h => absurd hc h⟩
    simp only [duk_safe_call, if_pos hc]
    exact ⟨fun _ => hc, fun _ => trivial⟩
  · refine ⟨?_, fun _ => by simp only [duk_safe_call, if_neg hc]⟩
    simp only [duk_safe_call, if_neg hc]
    constructor
    · intro h
      exact absurd h (by simp)
    · intro h
      exact absurd h hc

/-- Witness for C2: the validation faults at nargs = -1 on a concrete
state. -/
theorem c2_witness : duk_safe_call stEmpty fNop (-1) 1 = .error (.invalidArgs, stEmpty) :=
  ((c2_safe_call_validation stEmpty fNop (-1) 1).1).mpr (by decide)

/-- C9: with no current activation duk_is_constructor_call returns false
and duk_is_strict_call returns true; with an active frame each returns
exactly the corresponding flag of that frame. -/
theorem c9_activation_introspection (s : ThreadState) :
    (s.callstackCurr = none →
       duk_is_constructor_call s = false ∧ duk_is_strict_call s = true) ∧
    (∀ act, s.callstackCurr = some act →
       duk_is_constructor_call s = act.flagConstruct ∧ duk_is_strict_call s = act.flagStrict) := by
  constructor
  · intro h
    simp [duk_is_constructor_call, duk_is_strict_call, h]
  · intro act h
    simp [duk_is_constructor_call, duk_is_strict_call, h]

/-- Witness for C9 at a concrete state with no activation. -/
theorem c9_witness : duk_is_constructor_call stEmpty = false ∧ duk_is_strict_call stEmpty = true :=
  (c9_activation_introspection stEmpty).1 (by decide)

/-- The bound-function resolver leaves any stack top that is not a live
heap bound function unchanged. -/
theorem duk_resolve_nonbound_noop (s : ThreadState) (v : DukTval)
    (h1 : s.stack.getLast? = some v) (h2 : tvalNonboundIn s.heap v = true) :
    duk_resolve_nonbound_function s = s := by
  cases v with
  | object r =>
    cases hh : s.heap.get? r with
    | none => simp only [duk_resolve_nonbound_function, h1, hh]
    | some o =>
      simp only [tvalNonboundIn, hh] at h2
      cases hk : o.kind with
      | boundfunc t =>
        rw [hk] at h2
        simp [kindIsBound] at h2
      | plain => simp only [duk_resolve_nonbound_function, h1, hh, hk]
      | natfunc m => simp only [duk_resolve_nonbound_function, h1, hh, hk]
      | compfunc => simp only [duk_resolve_nonbound_function, h1, hh, hk]
  | undefined => simp only [duk_resolve_nonbound_function, h1]
  | boolean b => simp only [duk_resolve_nonbound_function, h1]
  | number n => simp only [duk_resolve_nonbound_function, h1]
  | str t => simp only [duk_resolve_nonbound_function, h1]
  | lightfunc lf => simp only [duk_resolve_nonbound_function, h1]
  | errObj k => simp only [duk_resolve_nonbound_function, h1]

/-- C7: resolving the stack top unwraps a heap bound function exactly once
to its stored target, leaves every other value unchanged, and under the
binder invariant (no bound target is itself bound) is idempotent. -/
theorem c7_resolve_nonbound (s : ThreadState) :
    (∀ r o t, s.stack.getLast? = some (.object r) → s.heap.get? r = some o →
       o.kind = .boundfunc t →
       duk_resolve_nonbound_function s = {s with stack := s.stack.dropLast ++ [t]}) ∧
    (∀ v, s.stack.getLast? = some v → tvalNonboundIn s.heap v = true →
       duk_resolve_nonbound_function s = s) ∧
    (s.stack.getLast? = none → duk_resolve_nonbound_function s = s) ∧
    (binderInvariant s.heap = true →
       duk_resolve_nonbound_function (duk_resolve_nonbound_function s) = duk_resolve_nonbound_function s) := by
  refine ⟨?_, fun v h1 h2 => duk_resolve_nonbound_noop s v h1 h2, ?_, ?_⟩
  · intro r o t h1 h2 h3
    simp only [duk_resolve_nonbound_function, h1, h2, h3]
  · intro h1
    simp only [duk_resolve_nonbound_function, h1]
  · intro hinv
    cases h1 : s.stack.getLast? with
    | none =>
      have hs : duk_resolve_nonbound_function s = s := by
        simp only [duk_resolve_nonbound_function, h1]
      rw [hs, hs]
    | some v =>
      cases hv : v with
      | object r =>
        cases h2 : s.heap.get? r with
        | none =>
          have hs : duk_resolve_nonbound_function s = s := by
            simp only [duk_resolve_nonbound_function, h1, hv, h2]
          rw [hs, hs]
        | some o =>
          cases h3 : o.kind with
          | boundfunc t =>
            have hs : duk_resolve_nonbound_function s = {s with stack := s.stack.dropLast ++ [t]} := by
              simp only [duk_resolve_nonbound_function, h1, hv, h2, h3]
            rw [hs]
            have hmem : o ∈ s.heap := List.get?_mem h2
            have hnb : tvalNonboundIn s.heap t = true := by
              have hall := (List.all_eq_true.mp hinv) o hmem
              rw [h3] at hall
              exact hall
            exact duk_resolve_nonbound_noop _ t (List.getLast?_concat _) hnb
          | plain =>
            have hs : duk_resolve_nonbound_function s = s := by
              simp only [duk_resolve_nonbound_function, h1, hv, h2, h3]
            rw [hs, hs]
          | natfunc m =>
            have hs : duk_resolve_nonbound_function s = s := by
              simp only [duk_resolve_nonbound_function, h1, hv, h2, h3]
            rw [hs, hs]
          | compfunc =>
            have hs : duk_resolve_nonbound_function s = s := by
              simp only [duk_resolve_nonbound_function, h1, hv, h2, h3]
            rw [hs, hs]
      | undefined =>
        have hs : duk_resolve_nonbound_function s = s := by
          simp only [duk_resolve_nonbound_function, h1, hv]
        rw [hs, hs]
      | boolean b =>
        have hs : duk_resolve_nonbound_function s = s := by
          simp only [duk_resolve_nonbound_function, h1, hv]
        rw [hs, hs]
      | number n =>
        have hs : duk_resolve_nonbound_function s = s := by
          simp only [duk_resolve_nonbound_function, h1, hv]
        rw [hs, hs]
      | str t =>
        have hs : duk_resolve_nonbound_function s = s := by
          simp only [duk_resolve_nonbound_function, h1, hv]
        rw [hs, hs]
      | lightfunc lf =>
        have hs : duk_resolve_nonbound_function s = s := by
          simp only [duk_resolve_nonbound_function, h1, hv]
        rw [hs, hs]
      | errObj k =>
        have hs : duk_resolve_nonbound_function s = s := by
          simp only [duk_resolve_nonbound_function, h1, hv]
        rw [hs, hs]

/-- Witness for C7: a concrete bound function resolves to its light target
and resolution is idempotent there. -/
theorem c7_witness :
    duk_resolve_nonbound_function stBound = {stBound with stack := stBound.stack.dropLast ++ [.lightfunc 0]} ∧
    duk_resolve_nonbound_function (duk_resolve_nonbound_function stBound) = duk_resolve_nonbound_function stBound :=
  ⟨(c7_resolve_nonbound stBound).1 0 boundObj (.lightfunc 0) (by decide) (by decide) (by decide),
   (c7_resolve_nonbound stBound).2.2.2 (by decide)⟩

/-- C8: duk_set_magic on a heap native function stores the value truncated
to the signed 16-bit range and type-faults on any other target; for magic
in {-5, 0, 1000} the stored value reads back unchanged through both the
explicit-value query and the current-activation query. -/
theorem c8_magic (s : ThreadState) (idx : Int) (a : Nat) (m : Int)
    (hn : normIdx s idx = some a) :
    (∀ r o m0, stackGet s a = .object r → s.heap.get? r = some o → o.kind = .natfunc m0 →
       (duk_set_magic s idx m = .ok ((), {s with heap := s.heap.set r {o with kind := .natfunc (toInt16 m)}}) ∧
        ((m = -5 ∨ m = 0 ∨ m = 1000) →
          (duk_get_magic {s with heap := s.heap.set r {o with kind := .natfunc (toInt16 m)}} idx = .ok (m, {s with heap := s.heap.set r {o with kind := .natfunc (toInt16 m)}}) ∧
           (∀ cf sf : Bool, duk_get_current_magic {s with heap := s.heap.set r {o with kind := .natfunc (toInt16 m)}, callstackCurr := some ⟨cf, sf, .object r⟩} = m))))) ∧
    (∀ r o, stackGet s a = .object r → s.heap.get? r = some o → (∀ m0, o.kind ≠ .natfunc m0) →
       duk_set_magic s idx m = .error (.typeFault, s)) ∧
    (∀ lf, stackGet s a = .lightfunc lf → duk_set_magic s idx m = .error (.typeFault, s)) := by
  have htv : ∀ v, stackGet s a = v → duk_require_tval s idx = some v := by
    intro v hv
    simp only [duk_require_tval, hn, Option.map_some', hv]
  refine ⟨?_, ?_, ?_⟩
  · intro r o m0 hg hh hk
    have hr : r < s.heap.length := (List.get?_eq_some.mp hh).1
    have hreq : duk_require_hnatfunc s idx = some (r, o) := by
      simp only [duk_require_hnatfunc, htv _ hg, hh, hk]
    have hset : duk_set_magic s idx m = .ok ((), {s with heap := s.heap.set r {o with kind := .natfunc (toInt16 m)}}) := by
      simp only [duk_set_magic, hreq]
    refine ⟨hset, ?_⟩
    intro hm
    have hh2 : (s.heap.set r {o with kind := HObjectKind.natfunc (toInt16 m)}).get? r = some {o with kind := HObjectKind.natfunc (toInt16 m)} := by
      rw [List.get?_set_eq]
      simp [hr]
    have htrunc : toInt16 m = m := by
      rcases hm with rfl | rfl | rfl <;> decide
    constructor
    · have htv2 : duk_require_tval {s with heap := s.heap.set r {o with kind := HObjectKind.natfunc (toInt16 m)}} idx = some (.object r) := htv _ hg
      simp only [duk_get_magic, htv2, hh2]
      rw [htrunc]
    · intro cf sf
      simp only [duk_get_current_magic, hh2]
      exact htrunc
  · intro r o hg hh hne
    have hreq : duk_require_hnatfunc s idx = none := by
      simp only [duk_require_hnatfunc, htv _ hg, hh]
    simp only [duk_set_magic, hreq]
  · intro lf hg
    have hreq : duk_require_hnatfunc s idx = none := by
      simp only [duk_require_hnatfunc, htv _ hg]
    simp only [duk_set_magic, hreq]

/-- Witness for C8: setting magic 1000 on a concrete native function and
reading it back through both queries. -/
theorem c8_witness :
    duk_set_magic stNat 0 1000 = .ok ((), {stNat with heap := stNat.heap.set 0 {natObj with kind := .natfunc (toInt16 1000)}}) ∧
    duk_get_magic {stNat with heap := stNat.heap.set 0 {natObj with kind := .natfunc (toInt16 1000)}} 0 = .ok (1000, {stNat with heap := stNat.heap.set 0 {natObj with kind := .natfunc (toInt16 1000)}}) ∧
    duk_get_current_magic {stNat with heap := stNat.heap.set 0 {natObj with kind := .natfunc (toInt16 1000)}, callstackCurr := some ⟨false, true, .object 0⟩} = 1000 := by
  have h := (c8_magic stNat 0 0 1000 (by decide)).1 0 natObj 7 (by decide) (by decide) (by decide)
  exact ⟨h.1, (h.2 (by decide)).1, (h.2 (by decide)).2 false true⟩

/-- C3: the method/property call preparer turns [..., key, arg1..argN]
above a normalized object index into [..., func, this, arg1..argN], where
func is the property value read from the object under the key and this is
the object itself; the stack grows by exactly one slot and exactly one
property read is performed. -/
theorem c3_call_prop_prep (H : List HObject) (P A : List DukTval) (k : DukTval)
    (b e pr : Nat) (c : Option Activation) (iv : List Invocation) (o r : Nat)
    (hb : b ≤ P.length) (ho : b + o < P.length)
    (hobj : P.getD (b + o) DukTval.undefined = DukTval.object r) :
    duk__call_prop_prep_stack ⟨H, P ++ k :: A, b, e, c, pr, iv⟩ (o : Int) (A.length : Int) =
      .ok ((), ⟨H, P ++ propValue H r k :: DukTval.object r :: A, b, e, c, pr + 1, iv⟩) ∧
    (P ++ propValue H r k :: DukTval.object r :: A).length = (P ++ k :: A).length + 1 :=
  ⟨duk__call_prop_prep_stack_eval H P A k b e pr c iv o r hb ho hobj, by simp; omega⟩

/-- Witness for C3 on a concrete object, key and two arguments. -/
theorem c3_witness :
    duk__call_prop_prep_stack ⟨[objF], [DukTval.object 0, DukTval.str "f", DukTval.number 1, DukTval.number 2], 0, 20, none, 0, []⟩ 0 2 =
      .ok ((), ⟨[objF], [DukTval.object 0, propValue [objF] 0 (DukTval.str "f"), DukTval.object 0, DukTval.number 1, DukTval.number 2], 0, 20, none, 1, []⟩) :=
  (c3_call_prop_prep [objF] [DukTval.object 0] [DukTval.number 1, DukTval.number 2] (DukTval.str "f")
    0 20 0 none [] 0 0 (by decide) (by decide) (by decide)).1

/-- C4: for an object O with property "f" bound to F, duk_call_prop with
key "f" and nargs = 2 performs the same invocation as manually staging
[F, this = O, a1, a2] and calling duk_call_method (the staged state counts
the one extra property read the preparer performs); with the concrete
undefined-returning engine the staged method call records the invocation
with callee F, receiver O and arguments [a1, a2]. -/
theorem c4_call_prop_refines_method (E : Engine) (H : List HObject) (P : List DukTval)
    (a1 a2 : DukTval) (b e pr : Nat) (c : Option Activation) (iv : List Invocation)
    (o r : Nat) (hb : b ≤ P.length) (ho : b + o < P.length)
    (hobj : P.getD (b + o) DukTval.undefined = DukTval.object r) :
    duk_call_prop E ⟨H, P ++ [DukTval.str "f", a1, a2], b, e, c, pr, iv⟩ (o : Int) 2 =
      duk_call_method E ⟨H, P ++ [propValue H r (DukTval.str "f"), DukTval.object r, a1, a2], b, e, c, pr + 1, iv⟩ 2 ∧
    duk_call_method engineConst ⟨H, P ++ [propValue H r (DukTval.str "f"), DukTval.object r, a1, a2], b, e, c, pr + 1, iv⟩ 2 =
      .ok (DUK_EXEC_SUCCESS, ⟨H, P ++ [DukTval.undefined], b, e, c, pr + 1, iv ++ [⟨propValue H r (DukTval.str "f"), DukTval.object r, [a1, a2], 0⟩]⟩) := by
  have hl : ((([a1, a2] : List DukTval).length : Nat) : Int) = 2 := by simp
  constructor
  · have hnorm : normIdx (⟨H, P ++ [DukTval.str "f", a1, a2], b, e, c, pr, iv⟩ : ThreadState) (o : Int) = some (b + o) := by
      apply normIdx_lit
      · omega
      · simp only [List.length_append, List.length_cons, List.length_nil]
        omega
      · right
        refine ⟨by omega, by push_cast; omega⟩
    have hoeq : ((b + o : Nat) : Int) - (b : Int) = (o : Int) := by push_cast; omega
    have hprep := duk__call_prop_prep_stack_eval H P [a1, a2] (DukTval.str "f") b e pr c iv o r hb ho hobj
    rw [hl] at hprep
    simp only [duk_call_prop, duk_require_normalize_index, hnorm]
    rw [if_neg (by omega)]
    rw [hoeq, hprep]
  · have hcm := duk_call_method_eval engineConst H P [a1, a2] (propValue H r (DukTval.str "f")) (DukTval.object r) b e (pr + 1) c iv hb
    rw [hl] at hcm
    have hh := duk_handle_call_unprotected_eval engineConst H P [a1, a2] (propValue H r (DukTval.str "f")) (DukTval.object r) b e (pr + 1) c iv 0 hb
    rw [hcm, hh]
    simp only [engineConst, List.take_left]

/-- Witness for C4 on a concrete object and arguments. -/
theorem c4_witness :
    duk_call_prop engineConst ⟨[objF], [DukTval.object 0, DukTval.str "f", DukTval.number 1, DukTval.number 2], 0, 20, none, 0, []⟩ 0 2 =
      duk_call_method engineConst ⟨[objF], [DukTval.object 0, propValue [objF] 0 (DukTval.str "f"), DukTval.object 0, DukTval.number 1, DukTval.number 2], 0, 20, none, 1, []⟩ 2 :=
  (c4_call_prop_refines_method engineConst [objF] [DukTval.object 0] (DukTval.number 1) (DukTval.number 2)
    0 20 0 none [] 0 0 (by decide) (by decide) (by decide)).1

/-- Inserting the freshly pushed top value at idx_func + 1 places it
immediately after the callee. -/
theorem duk_insert_after_push_eval (H : List HObject) (P A : List DukTval) (F v : DukTval)
    (b e pr : Nat) (c : Option Activation) (iv : List Invocation)
    (hb : b ≤ P.length) :
    duk_insert ⟨H, (P ++ F :: A) ++ [v], b, e, c, pr, iv⟩ (((P.length : Int) - (b : Int)) + 1) =
      .ok ((), ⟨H, P ++ F :: v :: A, b, e, c, pr, iv⟩) := by
  have hn : normIdx (⟨H, (P ++ F :: A) ++ [v], b, e, c, pr, iv⟩ : ThreadState) (((P.length : Int) - (b : Int)) + 1) = some (P.length + 1) := by
    apply normIdx_lit
    · omega
    · simp only [List.length_append, List.length_cons, List.length_nil]
      omega
    · right
      refine ⟨by omega, by push_cast; omega⟩
  rw [duk_insert_eval _ _ (P.length + 1) v hn (List.getLast?_concat _)]
  have hins : insertAt ((P ++ F :: A) ++ [v]).dropLast (P.length + 1) v = P ++ F :: v :: A := by
    rw [List.dropLast_concat]
    have hPA : P ++ F :: A = (P ++ [F]) ++ A := by simp
    rw [insertAt, hPA, List.take_left' (by simp), List.drop_left' (by simp)]
    simp
  simp only [hins]

/-- The protected plain-call helper inserts an undefined receiver at
idx_func + 1, exactly like duk_call, then invokes and declares one
result. -/
theorem duk__pcall_raw_eval (E : Engine) (H : List HObject) (P A : List DukTval) (F : DukTval)
    (b e pr : Nat) (c : Option Activation) (iv : List Invocation) (cf : Nat)
    (hb : b ≤ P.length) :
    duk__pcall_raw E (A.length : Int) cf ⟨H, P ++ F :: A, b, e, c, pr, iv⟩ =
      (match duk_handle_call_unprotected E ⟨H, P ++ F :: DukTval.undefined :: A, b, e, c, pr, iv⟩ ((P.length : Int) - (b : Int)) cf with
       | .error e2 => .error e2
       | .ok (_, s2) => .ok (1, s2)) := by
  have hidx : duk__call_get_idx_func_unvalidated ⟨H, P ++ F :: A, b, e, c, pr, iv⟩ (A.length : Int) 1 = (P.length : Int) - (b : Int) := by
    simp only [duk__call_get_idx_func_unvalidated, dukGetTop, List.length_append, List.length_cons]
    push_cast
    omega
  have hins : duk_insert_undefined (⟨H, P ++ F :: A, b, e, c, pr, iv⟩ : ThreadState) (((P.length : Int) - (b : Int)) + 1) =
      .ok ((), (⟨H, P ++ F :: DukTval.undefined :: A, b, e, c, pr, iv⟩ : ThreadState)) := by
    simp only [duk_insert_undefined, dukPush]
    exact duk_insert_after_push_eval H P A F DukTval.undefined b e pr c iv hb
  simp only [duk__pcall_raw, hidx, hins]

/-- duk_new on a staged [func, args] window pushes a fresh default
instance, inserts it at idx_func + 1 and invokes with the constructor
flag. -/
theorem duk_new_eval (E : Engine) (H : List HObject) (P A : List DukTval) (F : DukTval)
    (b e pr : Nat) (c : Option Activation) (iv : List Invocation)
    (hb : b ≤ P.length) :
    duk_new E ⟨H, P ++ F :: A, b, e, c, pr, iv⟩ (A.length : Int) =
      duk_handle_call_unprotected E ⟨H ++ [⟨HObjectKind.plain, []⟩], P ++ F :: DukTval.object H.length :: A, b, e, c, pr, iv⟩ ((P.length : Int) - (b : Int)) DUK_CALL_FLAG_CONSTRUCTOR_CALL := by
  have hidx : dukGetTop ⟨H, P ++ F :: A, b, e, c, pr, iv⟩ - (A.length : Int) - 1 = (P.length : Int) - (b : Int) := by
    simp only [dukGetTop, List.length_append, List.length_cons]
    push_cast
    omega
  have hins := duk_insert_after_push_eval (H ++ [⟨HObjectKind.plain, []⟩]) P A F (DukTval.object H.length) b e pr c iv hb
  simp only [duk_new, duk__call_get_idx_func, hidx]
  rw [if_neg (by omega)]
  simp only [duk_push_object, hins]

/-- C5: duk_call inserts an undefined receiver immediately after the
callee (at idx_func + 1) and invokes unprotected with the constructor
flag unset; receiver synthesis is confined to this plain-call shape
canonicalization: the protected plain-call helper duk__pcall_raw performs
the identical insertion, while duk_call_method invokes the caller-staged
window unchanged, duk_new inserts a fresh object instance (never
undefined), and the property preparer installs the base object itself. -/
theorem c5_call_undefined_receiver (E : Engine) (H : List HObject)
    (P A : List DukTval) (F T : DukTval) (b e pr : Nat)
    (c : Option Activation) (iv : List Invocation)
    (hb : b ≤ P.length) :
    duk_call E ⟨H, P ++ F :: A, b, e, c, pr, iv⟩ (A.length : Int) =
      duk_handle_call_unprotected E ⟨H, P ++ F :: DukTval.undefined :: A, b, e, c, pr, iv⟩ ((P.length : Int) - (b : Int)) 0 ∧
    duk__pcall_raw engineConst (A.length : Int) 0 ⟨H, P ++ F :: A, b, e, c, pr, iv⟩ =
      .ok (1, ⟨H, P ++ [DukTval.undefined], b, e, c, pr, iv ++ [⟨F, DukTval.undefined, A, 0⟩]⟩) ∧
    duk_call_method E ⟨H, P ++ F :: T :: A, b, e, c, pr, iv⟩ (A.length : Int) =
      duk_handle_call_unprotected E ⟨H, P ++ F :: T :: A, b, e, c, pr, iv⟩ ((P.length : Int) - (b : Int)) 0 ∧
    duk_new E ⟨H, P ++ F :: A, b, e, c, pr, iv⟩ (A.length : Int) =
      duk_handle_call_unprotected E ⟨H ++ [⟨HObjectKind.plain, []⟩], P ++ F :: DukTval.object H.length :: A, b, e, c, pr, iv⟩ ((P.length : Int) - (b : Int)) DUK_CALL_FLAG_CONSTRUCTOR_CALL ∧
    (∀ hr : Nat, DukTval.object hr ≠ DukTval.undefined) := by
  refine ⟨duk_call_eval E H P A F b e pr c iv hb, ?_,
          duk_call_method_eval E H P A F T b e pr c iv hb,
          duk_new_eval E H P A F b e pr c iv hb,
          fun hr => by simp⟩
  rw [duk__pcall_raw_eval engineConst H P A F b e pr c iv 0 hb,
      duk_handle_call_unprotected_eval engineConst H P A F DukTval.undefined b e pr c iv 0 hb]
  simp only [engineConst, List.take_left]

/-- Witness for C5: the insertion and the protected helper observed on a
concrete one-value stack. -/
theorem c5_witness :
    duk_call engineConst ⟨[], [DukTval.number 9], 0, 8, none, 0, []⟩ 0 =
      duk_handle_call_unprotected engineConst ⟨[], [DukTval.number 9, DukTval.undefined], 0, 8, none, 0, []⟩ 0 0 ∧
    duk__pcall_raw engineConst 0 0 ⟨[], [DukTval.number 9], 0, 8, none, 0, []⟩ =
      .ok (1, ⟨[], [DukTval.undefined], 0, 8, none, 0, [⟨DukTval.number 9, DukTval.undefined, [], 0⟩]⟩) :=
  ⟨(c5_call_undefined_receiver engineConst [] [] [] (DukTval.number 9) (DukTval.number 3) 0 8 0 none [] (by decide)).1,
   (c5_call_undefined_receiver engineConst [] [] [] (DukTval.number 9) (DukTval.number 3) 0 8 0 none [] (by decide)).2.1⟩

/-- C6: duk_new resolves idx_func through the validated resolver
(other = 1, faulting on a negative count or index), pushes a fresh
minimal default instance, inserts it as the receiver at idx_func + 1 and
invokes with the constructor flag set. -/
theorem c6_new_constructor (E : Engine) (H : List HObject)
    (P A : List DukTval) (F : DukTval) (b e pr : Nat)
    (c : Option Activation) (iv : List Invocation)
    (hb : b ≤ P.length) :
    duk_new E ⟨H, P ++ F :: A, b, e, c, pr, iv⟩ (A.length : Int) =
      duk_handle_call_unprotected E ⟨H ++ [⟨HObjectKind.plain, []⟩], P ++ F :: DukTval.object H.length :: A, b, e, c, pr, iv⟩ ((P.length : Int) - (b : Int)) DUK_CALL_FLAG_CONSTRUCTOR_CALL ∧
    (∀ (s : ThreadState) (n : Int), (n < 0 ∨ dukGetTop s - n - 1 < 0) →
       duk_new E s n = .error (.invalidArgs, s)) := by
  refine ⟨duk_new_eval E H P A F b e pr c iv hb, ?_⟩
  intro s n hn
  simp only [duk_new, duk__call_get_idx_func]
  rw [if_pos hn.symm]

/-- Witness for C6: constructing on a concrete one-value stack pushes a
fresh instance as receiver and sets the constructor flag. -/
theorem c6_witness :
    duk_new engineConst ⟨[], [DukTval.number 9], 0, 8, none, 0, []⟩ 0 =
      duk_handle_call_unprotected engineConst ⟨[⟨HObjectKind.plain, []⟩], [DukTval.number 9, DukTval.object 0], 0, 8, none, 0, []⟩ 0 DUK_CALL_FLAG_CONSTRUCTOR_CALL :=
  (c6_new_constructor engineConst [] [] [] (DukTval.number 9) 0 8 0 none [] (by decide)).1

/-- C10: in duk_pcall_prop with nargs ≥ 0 the object-index normalization
runs inside the protected boundary: an invalid obj_idx is intercepted and
reported as a non-zero status with the caught error pushed as the single
result, in contrast to a negative nargs, which faults synchronously
outside the boundary. -/
theorem c10_pcall_prop_normalization_protected (E : Engine) (s : ThreadState) (objIdx nargs : Int)
    (h0 : 0 ≤ nargs)
    (hroom : (s.bottom : Int) + nargs + 1 ≤ (s.stack.length : Int))
    (hend : (s.stack.length : Int) ≤ (s.vsEnd : Int))
    (hinv : normIdx s objIdx = none) :
    (duk_pcall_prop E s objIdx nargs =
       .ok (DUK_EXEC_ERROR, {s with stack := s.stack.take (s.stack.length - (nargs.toNat + 1)) ++ [DukTval.errObj .invalidArgs]}) ∧
     DUK_EXEC_ERROR ≠ DUK_EXEC_SUCCESS) ∧
    (∀ n : Int, n < 0 → duk_pcall_prop E s objIdx n = .error (.invalidArgs, s)) := by
  refine ⟨⟨?_, by simp [DUK_EXEC_ERROR, DUK_EXEC_SUCCESS]⟩, ?_⟩
  · have hraw : duk__pcall_prop_raw E objIdx nargs 0 s = .error (.invalidArgs, s) := by
      simp only [duk__pcall_prop_raw, duk_require_normalize_index, hinv]
    have htn : (nargs + 1).toNat = nargs.toNat + 1 := by omega
    simp only [duk_pcall_prop]
    rw [if_neg (by omega)]
    simp only [duk_safe_call]
    rw [if_neg (by omega)]
    simp only [duk_handle_safe_call, hraw, htn]
    norm_num
  · intro n hn
    simp only [duk_pcall_prop]
    rw [if_pos hn]

/-- Witness for C10: an out-of-range object index under the protected
property call yields the error status with the caught error as the single
result. -/
theorem c10_witness :
    duk_pcall_prop engineConst stPP 5 1 =
      .ok (DUK_EXEC_ERROR, {stPP with stack := stPP.stack.take (stPP.stack.length - ((1 : Int).toNat + 1)) ++ [DukTval.errObj .invalidArgs]}) :=
  ((c10_pcall_prop_normalization_protected engineConst stPP 5 1 (by decide) (by decide) (by decide) (by decide)).1).1
